import Mathlib

/-!
Verification development for the ERP → eshop product-sync integrator.

The definitions below are a shallow embedding of the Python sources:
  * `src/integrator/transformer.py`   — `load_erp_data`, `_parse_stock_value`,
    `transform_product`, `compute_hash`, `load_and_transform`;
  * `src/integrator/eshop_client.py`  — `RateLimiter.acquire`,
    `EshopClient._request_with_retry`;
  * `src/integrator/tasks.py`         — `sync_products_task`.

Modelling conventions:
  * Python floats are modelled as rationals (`ℚ`); `round(x, 2)` is modelled
    as exact round-half-to-even at two decimals.
  * File / network / database I/O is made explicit: the parsed JSON batch is
    a `List RawRecord` argument, HTTP responses are a function from the
    attempt number to a `Response`, and the `ProductSyncState` table is a
    function `String → Option SyncStateRec`.
  * Python exceptions are modelled as explicit result values.
-/

/-! ## Transformer data model -/

/-- The outcome of Python `int(value)` on one stock quantity taken from the
`stocks` mapping of a raw ERP record: `some n` when the conversion succeeds
with value `n`, `none` when it raises `TypeError`/`ValueError`
(e.g. `null` or a non-numeric string). -/
abbrev StockVal := Option ℤ

/-- A raw ERP record, as parsed from `erp_data.json`.  Each field models
`item.get(key)`: `none` stands for an absent key or a JSON `null`. -/
structure RawRecord where
  id : Option String
  title : Option String
  price_vat_excl : Option ℚ
  stocks : Option (List (String × StockVal))
  attributes : Option (List (String × String))
deriving DecidableEq

/-- The eshop wire payload built by `transform_product`
(`{'sku', 'title', 'price', 'stock', 'color'}`). -/
structure NormalizedProduct where
  sku : String
  title : String
  price : ℚ
  stock : ℤ
  color : String
deriving DecidableEq

/-- `VAT_RATE = 0.21` from `transformer.py`. -/
def VAT_RATE : ℚ := 21 / 100

/-- Round-half-to-even to an integer, the idealisation of Python `round`
applied to a rational value. -/
def roundHalfEven (q : ℚ) : ℤ :=
  if q - ⌊q⌋ < 1 / 2 then ⌊q⌋
  else if q - ⌊q⌋ > 1 / 2 then ⌊q⌋ + 1
  else if ⌊q⌋ % 2 = 0 then ⌊q⌋ else ⌊q⌋ + 1

/-- `round(x, 2)`: round to two decimal places, half to even. -/
def roundTo2 (q : ℚ) : ℚ := (roundHalfEven (q * 100) : ℚ) / 100

/-- `_parse_stock_value` from `transformer.py`: the `int(value)` result when
the conversion succeeds, else 0 (the `except` branch logs and returns 0). -/
def _parse_stock_value (value : StockVal) : ℤ := value.getD 0

/-- `transform_product` from `transformer.py`: drop the record when the
pre-tax price is `null` or negative; otherwise build the wire payload.
`raw.get('stocks') or {}` and `raw.get('attributes') or {}` map `none`
(absent / `null`) to the empty mapping; `attributes.get('color') or 'N/A'`
maps an absent or empty colour to the sentinel. -/
def transform_product (raw : RawRecord) : Option NormalizedProduct :=
  match raw.price_vat_excl with
  | none => none
  | some price_excl =>
    if price_excl < 0 then none
    else
      some
        { sku := raw.id.getD "<unknown>"
          title := raw.title.getD ""
          price := roundTo2 (price_excl * (1 + VAT_RATE))
          stock := ((raw.stocks.getD []).map (fun kv => _parse_stock_value kv.2)).sum
          color :=
            match (raw.attributes.getD []).lookup "color" with
            | none => "N/A"
            | some c => if c = "" then "N/A" else c }

/-- The inner deduplication loop of `load_erp_data`: `seen` is the set of
SKU keys already inserted into the `seen_skus` dict; an item whose key was
seen is dropped (first occurrence wins), otherwise it is kept in order. -/
def dedupLoop (seen : List (Option String)) : List RawRecord → List RawRecord
  | [] => []
  | item :: rest =>
    if item.id ∈ seen then dedupLoop seen rest
    else item :: dedupLoop (item.id :: seen) rest

/-- `load_erp_data` from `transformer.py`, applied to the already-parsed
JSON batch: deduplicate by the `id` key, first occurrence wins, insertion
order preserved (`list(seen_skus.values())`). -/
def load_erp_data (raw_list : List RawRecord) : List RawRecord :=
  dedupLoop [] raw_list

/-- `load_and_transform` from `transformer.py`: transform each deduplicated
record, keeping only the non-`None` results in order. -/
def load_and_transform (raw_list : List RawRecord) : List NormalizedProduct :=
  (load_erp_data raw_list).filterMap transform_product

/-- The first record of a batch carrying a given `id` key
(the occurrence that deduplication keeps). -/
def findFirstBySku (k : Option String) : List RawRecord → Option RawRecord
  | [] => none
  | r :: rest => if r.id = k then some r else findFirstBySku k rest

/-! ## SHA-256 (`hashlib.sha256(...).hexdigest()`) over byte lists -/

/-- Truncate to a 32-bit word. -/
def w32 (n : ℕ) : ℕ := n % 2 ^ 32

/-- 32-bit rotate right. -/
def rotr (n x : ℕ) : ℕ := w32 ((x >>> n) ||| (x <<< (32 - n)))

/-- SHA-256 big sigma 0. -/
def bsig0 (x : ℕ) : ℕ := rotr 2 x ^^^ rotr 13 x ^^^ rotr 22 x

/-- SHA-256 big sigma 1. -/
def bsig1 (x : ℕ) : ℕ := rotr 6 x ^^^ rotr 11 x ^^^ rotr 25 x

/-- SHA-256 small sigma 0. -/
def ssig0 (x : ℕ) : ℕ := rotr 7 x ^^^ rotr 18 x ^^^ (x >>> 3)

/-- SHA-256 small sigma 1. -/
def ssig1 (x : ℕ) : ℕ := rotr 17 x ^^^ rotr 19 x ^^^ (x >>> 10)

/-- SHA-256 choice function (bitwise not as xor with all-ones). -/
def shaCh (x y z : ℕ) : ℕ := (x &&& y) ^^^ ((x ^^^ 0xffffffff) &&& z)

/-- SHA-256 majority function. -/
def shaMaj (x y z : ℕ) : ℕ := (x &&& y) ^^^ (x &&& z) ^^^ (y &&& z)

/-- The 64 SHA-256 round constants of FIPS 180-4, in decimal. -/
def shaK : List ℕ :=
  [1116352408, 1899447441, 3049323471, 3921009573, 961987163, 1508970993,
   2453635748, 2870763221, 3624381080, 310598401, 607225278, 1426881987,
   1925078388, 2162078206, 2614888103, 3248222580, 3835390401, 4022224774,
   264347078, 604807628, 770255983, 1249150122, 1555081692, 1996064986,
   2554220882, 2821834349, 2952996808, 3210313671, 3336571891, 3584528711,
   113926993, 338241895, 666307205, 773529912, 1294757372, 1396182291,
   1695183700, 1986661051, 2177026350, 2456956037, 2730485921, 2820302411,
   3259730800, 3345764771, 3516065817, 3600352804, 4094571909, 275423344,
   430227734, 506948616, 659060556, 883997877, 958139571, 1322822218,
   1537002063, 1747873779, 1955562222, 2024104815, 2227730452, 2361852424,
   2428436474, 2756734187, 3204031479, 3329325298]

/-- The eight 32-bit chaining words of the SHA-256 state. -/
structure Hash8 where
  a : ℕ
  b : ℕ
  c : ℕ
  d : ℕ
  e : ℕ
  f : ℕ
  g : ℕ
  h : ℕ

/-- SHA-256 initial hash value. -/
def shaH0 : Hash8 :=
  ⟨0x6a09e667, 0xbb67ae85, 0x3c6ef372, 0xa54ff53a, 0x510e527f, 0x9b05688c, 0x1f83d9ab, 0x5be0cd19⟩

/-- Extend a 16-word message schedule by `n` further words. -/
def scheduleExtend (ws : List ℕ) : ℕ → List ℕ
  | 0 => ws
  | n + 1 =>
    scheduleExtend
      (ws ++ [w32 (ssig1 (ws.getD (ws.length - 2) 0) + ws.getD (ws.length - 7) 0 +
                   ssig0 (ws.getD (ws.length - 15) 0) + ws.getD (ws.length - 16) 0)]) n

/-- One SHA-256 round. -/
def shaRound (ws : List ℕ) (st : Hash8) (t : ℕ) : Hash8 :=
  let t1 := w32 (st.h + bsig1 st.e + shaCh st.e st.f st.g + shaK.getD t 0 + ws.getD t 0)
  let t2 := w32 (bsig0 st.a + shaMaj st.a st.b st.c)
  ⟨w32 (t1 + t2), st.a, st.b, st.c, w32 (st.d + t1), st.e, st.f, st.g⟩

/-- Compress one 512-bit block (given as 16 words) into the chaining state. -/
def shaCompress (H : Hash8) (block : List ℕ) : Hash8 :=
  let ws := scheduleExtend block 48
  let f := (List.range 64).foldl (shaRound ws) H
  ⟨w32 (H.a + f.a), w32 (H.b + f.b), w32 (H.c + f.c), w32 (H.d + f.d),
   w32 (H.e + f.e), w32 (H.f + f.f), w32 (H.g + f.g), w32 (H.h + f.h)⟩

/-- Big-endian 8-byte encoding of a length value. -/
def be64 (n : ℕ) : List ℕ :=
  [n >>> 56 % 256, n >>> 48 % 256, n >>> 40 % 256, n >>> 32 % 256,
   n >>> 24 % 256, n >>> 16 % 256, n >>> 8 % 256, n % 256]

/-- SHA-256 padding: append `0x80`, zero bytes up to 56 mod 64, then the
message bit length as a big-endian 64-bit integer. -/
def sha256Pad (msg : List ℕ) : List ℕ :=
  msg ++ [0x80] ++ List.replicate ((119 - msg.length % 64) % 64) 0 ++ be64 (8 * msg.length)

/-- The big-endian 32-bit word starting at byte offset `off`. -/
def wordAt (bs : List ℕ) (off : ℕ) : ℕ :=
  bs.getD off 0 * 2 ^ 24 + bs.getD (off + 1) 0 * 2 ^ 16 + bs.getD (off + 2) 0 * 2 ^ 8 +
    bs.getD (off + 3) 0

/-- The 16 words of the `i`-th 64-byte block. -/
def blockWords (bs : List ℕ) (i : ℕ) : List ℕ :=
  (List.range 16).map (fun j => wordAt bs (64 * i + 4 * j))

/-- SHA-256 of a byte list, as the final chaining state. -/
def sha256Words (msg : List ℕ) : Hash8 :=
  (List.range ((sha256Pad msg).length / 64)).foldl
    (fun H i => shaCompress H (blockWords (sha256Pad msg) i)) shaH0

/-- Lower-case hexadecimal digit. -/
def hexChar (n : ℕ) : Char :=
  if n < 10 then Char.ofNat (48 + n) else Char.ofNat (87 + n)

/-- Fixed-width 8-hex-digit rendering of a 32-bit word. -/
def toHex8 (n : ℕ) : List Char :=
  (List.range 8).map (fun i => hexChar ((n >>> (28 - 4 * i)) % 16))

/-- `hashlib.sha256(bytes).hexdigest()`: 64 lower-case hex characters. -/
def sha256Hex (msg : List ℕ) : String :=
  String.mk (toHex8 (sha256Words msg).a ++ toHex8 (sha256Words msg).b ++
    toHex8 (sha256Words msg).c ++ toHex8 (sha256Words msg).d ++ toHex8 (sha256Words msg).e ++
    toHex8 (sha256Words msg).f ++ toHex8 (sha256Words msg).g ++ toHex8 (sha256Words msg).h)

/-! ## JSON serialisation (`json.dumps(product, sort_keys=True, ensure_ascii=False)`) -/

/-- UTF-8 encoding of one code point (`str.encode('utf-8')`, per character). -/
def utf8EncodeChar (n : ℕ) : List ℕ :=
  if n < 0x80 then [n]
  else if n < 0x800 then [0xc0 ||| (n >>> 6), 0x80 ||| (n &&& 0x3f)]
  else if n < 0x10000 then
    [0xe0 ||| (n >>> 12), 0x80 ||| ((n >>> 6) &&& 0x3f), 0x80 ||| (n &&& 0x3f)]
  else
    [0xf0 ||| (n >>> 18), 0x80 ||| ((n >>> 12) &&& 0x3f), 0x80 ||| ((n >>> 6) &&& 0x3f),
     0x80 ||| (n &&& 0x3f)]

/-- UTF-8 encoding of a string as a byte list. -/
def utf8Encode (s : String) : List ℕ :=
  s.data.foldr (fun c acc => utf8EncodeChar c.toNat ++ acc) []

/-- A JSON value occurring in the eshop wire payload: a string, a Python
`int`, or a Python `float`. -/
inductive JVal where
  | jstr (s : String)
  | jint (n : ℤ)
  | jflt (q : ℚ)
deriving DecidableEq

/-- JSON string escaping as performed by `json.dumps` with
`ensure_ascii=False`: escape the quote, the backslash and control
characters; every other character is emitted as-is. -/
def escapeChar (c : Char) : List Char :=
  if c = '"' then ['\\', '"']
  else if c = '\\' then ['\\', '\\']
  else if c.toNat = 8 then ['\\', 'b']
  else if c.toNat = 9 then ['\\', 't']
  else if c.toNat = 10 then ['\\', 'n']
  else if c.toNat = 12 then ['\\', 'f']
  else if c.toNat = 13 then ['\\', 'r']
  else if c.toNat < 0x20 then ['\\', 'u', '0', '0', hexChar (c.toNat / 16), hexChar (c.toNat % 16)]
  else [c]

/-- A JSON string literal with surrounding quotes. -/
def renderStr (s : String) : String :=
  "\"" ++ String.mk (s.data.foldr (fun c acc => escapeChar c ++ acc) []) ++ "\""

/-- Decimal digits of the fractional part of a non-negative rational, with
fuel; empty once the remainder is zero. -/
def fracDigits : ℚ → ℕ → List Char
  | _, 0 => []
  | r, fuel + 1 =>
    if r = 0 then []
    else Char.ofNat (48 + (⌊r * 10⌋).toNat % 10) :: fracDigits (r * 10 - ⌊r * 10⌋) fuel

/-- `repr` of a Python float holding a terminating decimal value: minimal
decimal expansion, with `.0` kept for integral values (e.g. `121.0`). -/
def renderFloat (q : ℚ) : String :=
  (if q < 0 then "-" else "") ++ toString (⌊|q|⌋).toNat ++ "." ++
    (if |q| - ⌊|q|⌋ = 0 then "0" else String.mk (fracDigits (|q| - ⌊|q|⌋) 64))

/-- `repr` of a Python int. -/
def renderInt (n : ℤ) : String :=
  (if n < 0 then "-" else "") ++ toString n.natAbs

/-- Rendering of one JSON value. -/
def renderJVal : JVal → String
  | .jstr s => renderStr s
  | .jint n => renderInt n
  | .jflt q => renderFloat q

/-- Python string comparison on dict keys lifted to payload entries. -/
def keyLE (a b : String × JVal) : Prop := a.1 ≤ b.1

instance : DecidableRel keyLE := fun a b => inferInstanceAs (Decidable (a.1 ≤ b.1))

instance : IsTotal (String × JVal) keyLE := ⟨fun a b => le_total a.1 b.1⟩

instance : IsTrans (String × JVal) keyLE := ⟨fun _ _ _ hab hbc => le_trans hab hbc⟩

/-- `json.dumps(d, sort_keys=True, ensure_ascii=False)` on a flat object:
entries sorted by key, rendered with the default `', '` and `': '`
separators. -/
def jsonDumpsSorted (entries : List (String × JVal)) : String :=
  "\x7b" ++
    String.intercalate ", "
      ((entries.insertionSort keyLE).map (fun kv => renderStr kv.1 ++ ": " ++ renderJVal kv.2)) ++
    "\x7d"

/-- `compute_hash` from `transformer.py`, on the dict representation of a
payload (an association list, so that the Python dict's insertion order is
part of the input): canonical sorted-key JSON, UTF-8 encoded, SHA-256 hex
digest. -/
def compute_hash (product : List (String × JVal)) : String :=
  sha256Hex (utf8Encode (jsonDumpsSorted product))

/-- The dict built by `transform_product`, in its insertion order. -/
def NormalizedProduct.toWire (p : NormalizedProduct) : List (String × JVal) :=
  [("sku", .jstr p.sku), ("title", .jstr p.title), ("price", .jflt p.price),
   ("stock", .jint p.stock), ("color", .jstr p.color)]

/-- The content fingerprint stored by the sync task for one product. -/
def productHash (p : NormalizedProduct) : String :=
  compute_hash p.toWire

/-! ## Eshop client: retry loop (`EshopClient._request_with_retry`) -/

/-- `MAX_RETRIES = 3` from `eshop_client.py`. -/
def MAX_RETRIES : ℕ := 3

/-- One HTTP response, as the retry loop observes it.  `retryAfterParsed`
is the result of `_parse_retry_after`: `some q` when the `Retry-After`
header is present and numeric (its value in seconds), `none` when the
header is absent or unparsable. -/
structure Response where
  status : ℕ
  retryAfterParsed : Option ℚ
  body : String

/-- Termination of `_request_with_retry`: a returned response, an
`HTTPError` from `raise_for_status` (carrying status and body), or the
`RuntimeError` raised after exhausting retries on 429 (naming the method
and the endpoint URL). -/
inductive ReqResult where
  | ok (resp : Response)
  | httpError (status : ℕ) (body : String)
  | rateLimitExhausted (method url : String)

/-- What one call of `_request_with_retry` did: its outcome, the number of
network attempts performed, and the `time.sleep` durations in order. -/
structure ReqTrace where
  result : ReqResult
  attempts : ℕ
  waits : List ℚ

/-- The `for attempt in range(1, MAX_RETRIES + 1)` loop body of
`_request_with_retry`.  `responses i` is the response the network returns
on the `i`-th attempt; `backoff` starts at 1.0 and doubles after every 429.
On a 429 the loop sleeps for the parsed `Retry-After` value if present,
else for `backoff`, then retries; any other 4xx/5xx raises immediately via
`raise_for_status`; any other status is returned. -/
def requestLoop (method url : String) (responses : ℕ → Response) :
    ℕ → ℕ → ℚ → List ℚ → ReqTrace
  | _, 0, _, waits => ⟨.rateLimitExhausted method url, MAX_RETRIES, waits⟩
  | attempt, remaining + 1, backoff, waits =>
    let resp := responses attempt
    if resp.status = 429 then
      requestLoop method url responses (attempt + 1) remaining (backoff * 2)
        (waits ++ [resp.retryAfterParsed.getD backoff])
    else if 400 ≤ resp.status ∧ resp.status < 600 then
      ⟨.httpError resp.status resp.body, attempt, waits⟩
    else ⟨.ok resp, attempt, waits⟩

/-- `_request_with_retry` from `eshop_client.py`: run the attempt loop with
attempt counter 1, `MAX_RETRIES` attempts remaining, and backoff 1.0. -/
def _request_with_retry (method url : String) (responses : ℕ → Response) : ReqTrace :=
  requestLoop method url responses 1 MAX_RETRIES 1 []

/-- `send_product` from `eshop_client.py`: POST to the collection endpoint
for a new product, PATCH to the item endpoint otherwise. -/
def send_product (base_url : String) (product : NormalizedProduct) (is_new : Bool)
    (responses : ℕ → Response) : ReqTrace :=
  if is_new then _request_with_retry "POST" (base_url ++ "/products/") responses
  else _request_with_retry "PATCH" (base_url ++ "/products/" ++ product.sku ++ "/") responses

/-! ## Rate limiter (`RateLimiter`) -/

/-- The mutable state of a `RateLimiter`: configured rate, remaining tokens
in the current window, and the window start time (`None` before the first
request).  Tokens are modelled as a Python int (`ℤ`), time as `ℚ` seconds. -/
structure RateLimiter where
  rate : ℤ
  tokens : ℤ
  windowStart : Option ℚ

/-- `RateLimiter.__init__(rate)`. -/
def RateLimiter.init (rate : ℤ) : RateLimiter := ⟨rate, rate, none⟩

/-- `RateLimiter.acquire`, called at monotonic time `now`: returns the new
limiter state and the duration slept (0 when the call is immediate).  A
missing or expired window is reset to a full bucket; with tokens left one
is consumed; otherwise the caller sleeps until the window's age reaches
1.0 s and then opens a fresh window keeping `rate - 1` tokens.  The time
read after the sleep is idealised as `now + sleep`. -/
def RateLimiter.acquire (s : RateLimiter) (now : ℚ) : RateLimiter × ℚ :=
  let s1 : RateLimiter :=
    match s.windowStart with
    | none => ⟨s.rate, s.rate, some now⟩
    | some w => if now - w ≥ 1 then ⟨s.rate, s.rate, some now⟩ else s
  if s1.tokens > 0 then (⟨s1.rate, s1.tokens - 1, s1.windowStart⟩, 0)
  else
    let w := s1.windowStart.getD now
    let wait := max (1 - (now - w)) 0
    (⟨s1.rate, s1.rate - 1, some (now + wait)⟩, wait)

/-- A sequence of `acquire` calls at the given times: final state plus the
list of slept durations. -/
def RateLimiter.acquireSeq (s : RateLimiter) : List ℚ → RateLimiter × List ℚ
  | [] => (s, [])
  | t :: ts =>
    let (s1, wait) := s.acquire t
    let (s2, waits) := s1.acquireSeq ts
    (s2, wait :: waits)

/-! ## Sync orchestrator (`sync_products_task`) -/

/-- One `ProductSyncState` row: the stored content hash and the
`synced_as_new` flag (`last_synced_at` is not observed by the core). -/
structure SyncStateRec where
  content_hash : String
  synced_as_new : Bool

/-- The `ProductSyncState` table, keyed by `sku`
(`objects.get` / `state.save()` as a key-value contract). -/
abbrev SyncStore := String → Option SyncStateRec

/-- `state.save()`: update or insert the row for `sku`. -/
def upsert (store : SyncStore) (sku : String) (v : SyncStateRec) : SyncStore :=
  fun k => if k = sku then some v else store k

/-- The running tallies and observable effects of one sync run: the table
contents, the three counters, and the skus for which `send_product` was
invoked (the network calls), in order. -/
structure RunAcc where
  store : SyncStore
  sent : ℕ
  skipped : ℕ
  errors : ℕ
  calls : List String

/-- The per-product body of the loop in `sync_products_task`.  `send p
is_new` tells whether the `send_product` call for `p` returns normally
(`true`) or raises (`false`); a raise is caught by the `except` block,
which increments `errors` and leaves the stored state untouched.  An
existing row with an equal hash is skipped with no network call; otherwise
the product is sent and, on success, the row is upserted with the new hash
and the `is_new` flag. -/
def syncStep (send : NormalizedProduct → Bool → Bool) (acc : RunAcc)
    (product : NormalizedProduct) : RunAcc :=
  let sku := product.sku
  let new_hash := productHash product
  match acc.store sku with
  | some state =>
    if state.content_hash = new_hash then
      { acc with skipped := acc.skipped + 1 }
    else if send product false then
      { acc with store := upsert acc.store sku ⟨new_hash, false⟩,
                 sent := acc.sent + 1, calls := acc.calls ++ [sku] }
    else { acc with errors := acc.errors + 1, calls := acc.calls ++ [sku] }
  | none =>
    if send product true then
      { acc with store := upsert acc.store sku ⟨new_hash, true⟩,
                 sent := acc.sent + 1, calls := acc.calls ++ [sku] }
    else { acc with errors := acc.errors + 1, calls := acc.calls ++ [sku] }

/-- `sync_products_task` from `tasks.py`, over an explicit product list,
initial table and send outcome: fold the per-product step over the batch. -/
def sync_products_task (send : NormalizedProduct → Bool → Bool) (store0 : SyncStore)
    (products : List NormalizedProduct) : RunAcc :=
  products.foldl (syncStep send) ⟨store0, 0, 0, 0, []⟩

/-! ## Retry-loop lemmas and claims C2, C4, C7 -/

/-- How the loop settles a non-429 response at a given attempt:
`raise_for_status` raises for 4xx/5xx, otherwise the response is returned. -/
def resolveResponse (r : Response) (attempt : ℕ) (w : List ℚ) : ReqTrace :=
  if 400 ≤ r.status ∧ r.status < 600 then ⟨.httpError r.status r.body, attempt, w⟩
  else ⟨.ok r, attempt, w⟩

theorem resolveResponse_attempts (r : Response) (a : ℕ) (w : List ℚ) :
    (resolveResponse r a w).attempts = a := by
  unfold resolveResponse; split <;> rfl

theorem resolveResponse_ok (r : Response) (a : ℕ) (w : List ℚ) (h : r.status < 400) :
    resolveResponse r a w = ⟨.ok r, a, w⟩ := by
  unfold resolveResponse
  exact if_neg (fun hc => absurd hc.1 (by omega))

theorem resolveResponse_err (r : Response) (a : ℕ) (w : List ℚ)
    (h4 : 400 ≤ r.status) (h6 : r.status < 600) :
    resolveResponse r a w = ⟨.httpError r.status r.body, a, w⟩ :=
  if_pos ⟨h4, h6⟩

theorem requestLoop_zero (m u : String) (rs : ℕ → Response) (attempt : ℕ) (b : ℚ) (w : List ℚ) :
    requestLoop m u rs attempt 0 b w = ⟨.rateLimitExhausted m u, MAX_RETRIES, w⟩ := rfl

theorem requestLoop_succ (m u : String) (rs : ℕ → Response) (attempt rem : ℕ) (b : ℚ)
    (w : List ℚ) :
    requestLoop m u rs attempt (rem + 1) b w =
      if (rs attempt).status = 429 then
        requestLoop m u rs (attempt + 1) rem (b * 2)
          (w ++ [(rs attempt).retryAfterParsed.getD b])
      else resolveResponse (rs attempt) attempt w := by
  show _ = if (rs attempt).status = 429 then _
    else if 400 ≤ (rs attempt).status ∧ (rs attempt).status < 600 then _ else _
  rfl

/-- Trace when the very first response is not a 429. -/
theorem rwr_first (m u : String) (rs : ℕ → Response) (h1 : (rs 1).status ≠ 429) :
    _request_with_retry m u rs = resolveResponse (rs 1) 1 [] := by
  have e : _request_with_retry m u rs = requestLoop m u rs 1 (2 + 1) 1 [] := rfl
  rw [e, requestLoop_succ, if_neg h1]

/-- Trace after one 429 followed by a non-429 response. -/
theorem rwr_second (m u : String) (rs : ℕ → Response)
    (h1 : (rs 1).status = 429) (h2 : (rs 2).status ≠ 429) :
    _request_with_retry m u rs =
      resolveResponse (rs 2) 2 [(rs 1).retryAfterParsed.getD 1] := by
  have e : _request_with_retry m u rs = requestLoop m u rs 1 (2 + 1) 1 [] := rfl
  rw [e, requestLoop_succ, if_pos h1, show (1 : ℕ) + 1 = 1 + 1 from rfl, requestLoop_succ,
    if_neg (by simpa using h2)]
  rfl

/-- Trace after two 429s followed by a non-429 response. -/
theorem rwr_third (m u : String) (rs : ℕ → Response)
    (h1 : (rs 1).status = 429) (h2 : (rs 2).status = 429) (h3 : (rs 3).status ≠ 429) :
    _request_with_retry m u rs =
      resolveResponse (rs 3) 3
        [(rs 1).retryAfterParsed.getD 1, (rs 2).retryAfterParsed.getD 2] := by
  have e : _request_with_retry m u rs = requestLoop m u rs 1 (2 + 1) 1 [] := rfl
  rw [e, requestLoop_succ, if_pos h1, show (1 : ℕ) + 1 = 1 + 1 from rfl, requestLoop_succ,
    if_pos (by simpa using h2), show (1 : ℕ) + 1 + 1 = 0 + 1 + 1 + 1 from rfl, requestLoop_succ,
    if_neg (by simpa using h3), show (1 : ℚ) * 2 = 2 from by norm_num]
  rfl

/-- Trace when all three responses are 429. -/
theorem rwr_exhaust (m u : String) (rs : ℕ → Response)
    (h1 : (rs 1).status = 429) (h2 : (rs 2).status = 429) (h3 : (rs 3).status = 429) :
    _request_with_retry m u rs =
      ⟨.rateLimitExhausted m u, MAX_RETRIES,
        [(rs 1).retryAfterParsed.getD 1, (rs 2).retryAfterParsed.getD 2,
         (rs 3).retryAfterParsed.getD 4]⟩ := by
  have e : _request_with_retry m u rs = requestLoop m u rs 1 (2 + 1) 1 [] := rfl
  rw [e, requestLoop_succ, if_pos h1, show (1 : ℕ) + 1 = 1 + 1 from rfl, requestLoop_succ,
    if_pos (by simpa using h2), show (1 : ℕ) + 1 + 1 = 0 + 0 + 1 + 1 + 1 from rfl,
    requestLoop_succ, if_pos (by simpa using h3), requestLoop_zero,
    show (1 : ℚ) * 2 = 2 from by norm_num, show (2 : ℚ) * 2 = 4 from by norm_num]
  rfl

/-- The backoff-or-header wait expected before retry `j + 1`, for `j`
429 responses so far: the parsed `Retry-After` when present, else the
exponential backoff `2 ^ j` (1.0, 2.0, 4.0, …). -/
def expectedWaits (rs : ℕ → Response) (k : ℕ) : List ℚ :=
  (List.range k).map (fun j => (rs (j + 1)).retryAfterParsed.getD (2 ^ j))

/-- C2: `_request_with_retry` makes at most `MAX_RETRIES = 3` network
attempts; three 429 responses exhaust the retries and raise the
rate-limit-exhausted error naming the method and endpoint; and the first
successful (2xx/3xx) response, with only 429s before it, is returned
immediately after exactly that many attempts. -/
theorem retry_attempts_exhaustion_success (m u : String) (rs : ℕ → Response) :
    (_request_with_retry m u rs).attempts ≤ MAX_RETRIES ∧
    ((∀ i, 1 ≤ i → i ≤ MAX_RETRIES → (rs i).status = 429) →
      (_request_with_retry m u rs).result = .rateLimitExhausted m u ∧
      (_request_with_retry m u rs).attempts = MAX_RETRIES) ∧
    (∀ k, 1 ≤ k → k ≤ MAX_RETRIES → (∀ i, 1 ≤ i → i < k → (rs i).status = 429) →
      (rs k).status < 400 →
      (_request_with_retry m u rs).result = .ok (rs k) ∧
      (_request_with_retry m u rs).attempts = k) := by
  refine ⟨?_, ?_, ?_⟩
  · by_cases h1 : (rs 1).status = 429
    · by_cases h2 : (rs 2).status = 429
      · by_cases h3 : (rs 3).status = 429
        · rw [rwr_exhaust m u rs h1 h2 h3]
        · rw [rwr_third m u rs h1 h2 h3, resolveResponse_attempts]; norm_num [MAX_RETRIES]
      · rw [rwr_second m u rs h1 h2, resolveResponse_attempts]; norm_num [MAX_RETRIES]
    · rw [rwr_first m u rs h1, resolveResponse_attempts]; norm_num [MAX_RETRIES]
  · intro hall
    rw [rwr_exhaust m u rs (hall 1 (by norm_num) (by norm_num [MAX_RETRIES]))
      (hall 2 (by norm_num) (by norm_num [MAX_RETRIES]))
      (hall 3 (by norm_num) (by norm_num [MAX_RETRIES]))]
    exact ⟨rfl, rfl⟩
  · intro k hk1 hk3 hprev hok
    have hne : (rs k).status ≠ 429 := by omega
    rw [MAX_RETRIES] at hk3
    interval_cases k
    · rw [rwr_first m u rs hne, resolveResponse_ok _ _ _ hok]; exact ⟨rfl, rfl⟩
    · rw [rwr_second m u rs (hprev 1 (by norm_num) (by norm_num)) hne,
        resolveResponse_ok _ _ _ hok]
      exact ⟨rfl, rfl⟩
    · rw [rwr_third m u rs (hprev 1 (by norm_num) (by norm_num))
        (hprev 2 (by norm_num) (by norm_num)) hne, resolveResponse_ok _ _ _ hok]
      exact ⟨rfl, rfl⟩

/-- A network that always answers 429 without a `Retry-After` header. -/
def rsAll429 : ℕ → Response := fun _ => ⟨429, none, ""⟩

theorem retry_attempts_exhaustion_success_witness :
    (_request_with_retry "POST" "https://api/products/" rsAll429).result =
      .rateLimitExhausted "POST" "https://api/products/" ∧
    (_request_with_retry "POST" "https://api/products/" rsAll429).attempts = 3 :=
  (retry_attempts_exhaustion_success "POST" "https://api/products/" rsAll429).2.1
    (fun _ _ _ => rfl)

/-- C4: while the first `k ≤ 3` responses are all 429, the `j`-th sleep
equals the parsed `Retry-After` of the `j`-th response when that header is
present and numeric, and otherwise the exponential backoff `2 ^ (j - 1)`
(1.0, then 2.0, …). -/
theorem retry_wait_schedule (m u : String) (rs : ℕ → Response) (k : ℕ)
    (hk : k ≤ MAX_RETRIES) (hall : ∀ i, 1 ≤ i → i ≤ k → (rs i).status = 429) :
    (_request_with_retry m u rs).waits.take k = expectedWaits rs k := by
  rw [MAX_RETRIES] at hk
  have ew0 : expectedWaits rs 0 = [] := rfl
  have ew1 : expectedWaits rs 1 = [(rs 1).retryAfterParsed.getD 1] := by
    simp [expectedWaits, List.range_succ]
  have ew2 : expectedWaits rs 2 =
      [(rs 1).retryAfterParsed.getD 1, (rs 2).retryAfterParsed.getD 2] := by
    simp [expectedWaits, List.range_succ]
  have ew3 : expectedWaits rs 3 =
      [(rs 1).retryAfterParsed.getD 1, (rs 2).retryAfterParsed.getD 2,
       (rs 3).retryAfterParsed.getD 4] := by
    simp [expectedWaits, List.range_succ]
    norm_num
  interval_cases k
  · simp [ew0]
  · have h1 := hall 1 (by norm_num) (by norm_num)
    by_cases h2 : (rs 2).status = 429
    · by_cases h3 : (rs 3).status = 429
      · rw [rwr_exhaust m u rs h1 h2 h3, ew1]; rfl
      · rw [rwr_third m u rs h1 h2 h3, ew1]
        simp [resolveResponse]; split <;> rfl
    · rw [rwr_second m u rs h1 h2, ew1]
      simp [resolveResponse]; split <;> rfl
  · have h1 := hall 1 (by norm_num) (by norm_num)
    have h2 := hall 2 (by norm_num) (by norm_num)
    by_cases h3 : (rs 3).status = 429
    · rw [rwr_exhaust m u rs h1 h2 h3, ew2]; rfl
    · rw [rwr_third m u rs h1 h2 h3, ew2]
      simp [resolveResponse]; split <;> rfl
  · have h1 := hall 1 (by norm_num) (by norm_num)
    have h2 := hall 2 (by norm_num) (by norm_num)
    have h3 := hall 3 (by norm_num) (by norm_num)
    rw [rwr_exhaust m u rs h1 h2 h3, ew3]
    rfl

/-- A network answering two header-less 429s and then 201 Created. -/
def rsTwo429 : ℕ → Response := fun n => if n ≤ 2 then ⟨429, none, ""⟩ else ⟨201, none, "{}"⟩

theorem retry_wait_schedule_witness :
    (_request_with_retry "POST" "https://api/products/" rsTwo429).waits.take 2 =
      [(1 : ℚ), 2] := by
  have h := retry_wait_schedule "POST" "https://api/products/" rsTwo429 2
    (by norm_num [MAX_RETRIES])
    (by intro i hi1 hi2; interval_cases i <;> rfl)
  rw [h]
  rfl

/-- C7: a first response with a non-429 unsuccessful status (4xx/5xx)
raises `HTTPError` carrying the status and body after exactly one attempt,
with no retry and no sleep. -/
theorem non429_error_raises_immediately (m u : String) (rs : ℕ → Response)
    (h4 : 400 ≤ (rs 1).status) (h6 : (rs 1).status < 600) (hne : (rs 1).status ≠ 429) :
    (_request_with_retry m u rs).result = .httpError (rs 1).status (rs 1).body ∧
    (_request_with_retry m u rs).attempts = 1 ∧
    (_request_with_retry m u rs).waits = [] := by
  rw [rwr_first m u rs hne, resolveResponse_err _ _ _ h4 h6]
  exact ⟨rfl, rfl, rfl⟩

/-- A network that always answers 500. -/
def rsAll500 : ℕ → Response := fun _ => ⟨500, none, "boom"⟩

theorem non429_error_raises_immediately_witness :
    (_request_with_retry "POST" "https://api/products/" rsAll500).result =
      .httpError 500 "boom" ∧
    (_request_with_retry "POST" "https://api/products/" rsAll500).attempts = 1 ∧
    (_request_with_retry "POST" "https://api/products/" rsAll500).waits = [] :=
  non429_error_raises_immediately "POST" "https://api/products/" rsAll500
    (by norm_num [rsAll500]) (by norm_num [rsAll500]) (by norm_num [rsAll500])

/-! ## Rate-limiter lemmas and claim C9 -/

/-- First-ever `acquire` on a positive rate: start the window, consume one
token, return immediately. -/
theorem acquire_fresh (r tk : ℤ) (t : ℚ) (hr : 0 < r) :
    RateLimiter.acquire ⟨r, tk, none⟩ t = (⟨r, r - 1, some t⟩, 0) := by
  simp [RateLimiter.acquire, hr]

/-- An in-window `acquire` with tokens remaining: consume one token,
return immediately, window untouched. -/
theorem acquire_immediate (r tk : ℤ) (w t : ℚ) (hlt : t - w < 1) (hpos : 0 < tk) :
    RateLimiter.acquire ⟨r, tk, some w⟩ t = (⟨r, tk - 1, some w⟩, 0) := by
  have hng : ¬ t - w ≥ 1 := by linarith
  simp [RateLimiter.acquire, hng, hpos]

/-- An in-window `acquire` on an empty bucket: sleep for the remainder of
the window, then open a fresh window short one token. -/
theorem acquire_empty (r tk : ℤ) (w t : ℚ) (hlt : t - w < 1) (hz : tk ≤ 0) :
    RateLimiter.acquire ⟨r, tk, some w⟩ t =
      (⟨r, r - 1, some (t + max (1 - (t - w)) 0)⟩, max (1 - (t - w)) 0) := by
  have hng : ¬ t - w ≥ 1 := by linarith
  have hnp : ¬ tk > 0 := by linarith
  simp [RateLimiter.acquire, hng, hnp]

/-- `acquire` never changes the configured rate. -/
theorem acquire_rate (s : RateLimiter) (t : ℚ) : ((s.acquire t).1).rate = s.rate := by
  obtain ⟨r, tk, ws⟩ := s
  cases ws <;> simp [RateLimiter.acquire] <;> split_ifs <;> rfl

/-- `acquire` keeps the token count within `[0, rate]` when the rate is at
least 1 (tokens are a plain integer in the source, so this is a real
invariant, not a typing artefact). -/
theorem acquire_tokens_bounds (s : RateLimiter) (t : ℚ) (hr : 1 ≤ s.rate)
    (h0 : 0 ≤ s.tokens) (h1 : s.tokens ≤ s.rate) :
    0 ≤ ((s.acquire t).1).tokens ∧ ((s.acquire t).1).tokens ≤ s.rate := by
  obtain ⟨r, tk, ws⟩ := s
  simp only at hr h0 h1 ⊢
  cases ws with
  | none =>
    rw [acquire_fresh r tk t (by omega)]
    exact ⟨by dsimp only; omega, by dsimp only; omega⟩
  | some w =>
    by_cases hres : t - w ≥ 1
    · have hstep : RateLimiter.acquire ⟨r, tk, some w⟩ t = (⟨r, r - 1, some t⟩, 0) := by
        simp [RateLimiter.acquire, hres, show (0 : ℤ) < r by omega]
      rw [hstep]
      exact ⟨by dsimp only; omega, by dsimp only; omega⟩
    · by_cases hpos : 0 < tk
      · rw [acquire_immediate r tk w t (by linarith) hpos]
        exact ⟨by dsimp only; omega, by dsimp only; omega⟩
      · rw [acquire_empty r tk w t (by linarith) (by omega)]
        exact ⟨by dsimp only; omega, by dsimp only; omega⟩

/-- `acquireSeq` never changes the configured rate. -/
theorem acquireSeq_rate (s : RateLimiter) (ts : List ℚ) :
    ((s.acquireSeq ts).1).rate = s.rate := by
  induction ts generalizing s with
  | nil => rfl
  | cons t ts ih => rw [RateLimiter.acquireSeq]; rw [ih]; exact acquire_rate s t

/-- Token bounds are preserved across any sequence of `acquire` calls. -/
theorem acquireSeq_tokens_bounds (s : RateLimiter) (ts : List ℚ) (hr : 1 ≤ s.rate)
    (h0 : 0 ≤ s.tokens) (h1 : s.tokens ≤ s.rate) :
    0 ≤ ((s.acquireSeq ts).1).tokens ∧ ((s.acquireSeq ts).1).tokens ≤ s.rate := by
  induction ts generalizing s with
  | nil => exact ⟨h0, h1⟩
  | cons t ts ih =>
    rw [RateLimiter.acquireSeq]
    obtain ⟨ha, hb⟩ := acquire_tokens_bounds s t hr h0 h1
    have hrr : 1 ≤ ((s.acquire t).1).rate := by rw [acquire_rate]; exact hr
    have hb' : ((s.acquire t).1).tokens ≤ ((s.acquire t).1).rate := by
      rw [acquire_rate]; exact hb
    obtain ⟨hc, hd⟩ := ih ((s.acquire t).1) hrr ha hb'
    exact ⟨hc, by rw [acquire_rate s t] at hd; exact hd⟩

/-- Within one window (all call times before the window's end) a run in
which every `acquire` returned without sleeping can have at most `tokens`
many calls. -/
theorem inwindow_immediate_bound (ts : List ℚ) (s : RateLimiter) (w : ℚ)
    (hw : s.windowStart = some w) (h0 : 0 ≤ s.tokens) (hin : ∀ t ∈ ts, t - w < 1)
    (himm : (s.acquireSeq ts).2 = List.replicate ts.length 0) :
    (ts.length : ℤ) ≤ s.tokens := by
  induction ts generalizing s with
  | nil => simpa using h0
  | cons t ts ih =>
    obtain ⟨r, tk, ws⟩ := s
    simp only at hw h0
    subst hw
    have hlt : t - w < 1 := hin t (by simp)
    by_cases hpos : 0 < tk
    · rw [RateLimiter.acquireSeq, acquire_immediate r tk w t hlt hpos] at himm
      dsimp only at himm
      simp only [List.length_cons, List.replicate_succ] at himm ⊢
      have htail := ih ⟨r, tk - 1, some w⟩ rfl (by dsimp only; omega)
        (fun x hx => hin x (by simp [hx]))
        (by simpa using congrArg (fun l => l.tail) himm)
      simp only at htail
      push_cast at htail ⊢
      omega
    · exfalso
      rw [RateLimiter.acquireSeq, acquire_empty r tk w t hlt (by omega)] at himm
      dsimp only at himm
      simp only [List.length_cons, List.replicate_succ] at himm
      have hwait : max (1 - (t - w)) 0 = 0 := by
        simpa using congrArg (fun l => l.headI) himm
      have : (0 : ℚ) < 1 - (t - w) := by linarith
      rw [max_eq_left (by linarith)] at hwait
      linarith

/-- `m` immediate acquires at time `t` inside the window starting at `t`,
while at least `m` tokens remain. -/
theorem acquireSeq_replicate (m : ℕ) (r tk : ℤ) (t : ℚ) (hm : (m : ℤ) ≤ tk) :
    RateLimiter.acquireSeq ⟨r, tk, some t⟩ (List.replicate m t) =
      (⟨r, tk - m, some t⟩, List.replicate m 0) := by
  induction m generalizing tk with
  | zero => simp [RateLimiter.acquireSeq]
  | succ m ih =>
    have hpos : 0 < tk := by
      have : ((m : ℤ) + 1) ≤ tk := by push_cast at hm; omega
      omega
    rw [List.replicate_succ, RateLimiter.acquireSeq,
      acquire_immediate r tk t t (by norm_num) hpos]
    dsimp only
    rw [ih (tk - 1) (by push_cast at hm ⊢; omega),
      show tk - 1 - (m : ℤ) = tk - (((m + 1 : ℕ) : ℤ)) from by push_cast; ring,
      ← List.replicate_succ]

/-- `acquireSeq` over an appended list runs the two halves in sequence. -/
theorem acquireSeq_append (s : RateLimiter) (xs ys : List ℚ) :
    s.acquireSeq (xs ++ ys) =
      ((((s.acquireSeq xs).1).acquireSeq ys).1,
        (s.acquireSeq xs).2 ++ (((s.acquireSeq xs).1).acquireSeq ys).2) := by
  induction xs generalizing s with
  | nil => simp [RateLimiter.acquireSeq]
  | cons x xs ih =>
    simp only [List.cons_append, RateLimiter.acquireSeq, List.append_eq]
    rw [ih ((s.acquire x).1)]

/-- C9: for any sequence of `acquire` calls on a limiter with `rate ≥ 1`,
the token count stays within `[0, rate]`; within a single window at most
`tokens`-many calls can return without sleeping; and from a fresh limiter,
`rate` acquires at the window start are all immediate, while the next call
inside the same window sleeps exactly until the window rolls over and then
holds `rate - 1` tokens of the fresh window. -/
theorem rate_limiter_window_behavior :
    (∀ (s : RateLimiter) (ts : List ℚ), 1 ≤ s.rate → 0 ≤ s.tokens → s.tokens ≤ s.rate →
      0 ≤ ((s.acquireSeq ts).1).tokens ∧ ((s.acquireSeq ts).1).tokens ≤ s.rate) ∧
    (∀ (s : RateLimiter) (w : ℚ) (ts : List ℚ), s.windowStart = some w → 0 ≤ s.tokens →
      (∀ t ∈ ts, t - w < 1) → (s.acquireSeq ts).2 = List.replicate ts.length 0 →
      (ts.length : ℤ) ≤ s.tokens) ∧
    (∀ (r : ℕ) (t tp : ℚ), 1 ≤ r → t ≤ tp → tp < t + 1 →
      (RateLimiter.init r).acquireSeq (List.replicate r t ++ [tp]) =
        (⟨r, (r : ℤ) - 1, some (t + 1)⟩, List.replicate r 0 ++ [t + 1 - tp]) ∧
      (0 : ℚ) < t + 1 - tp) := by
  refine ⟨acquireSeq_tokens_bounds, fun s w ts => inwindow_immediate_bound ts s w, ?_⟩
  intro r t tp hr hle hlt
  have hr0 : (0 : ℤ) < (r : ℤ) := by exact_mod_cast hr
  obtain ⟨r', rfl⟩ : ∃ r', r = r' + 1 := ⟨r - 1, by omega⟩
  have hfirst :
      (RateLimiter.init ((r' + 1 : ℕ) : ℤ)).acquireSeq (List.replicate (r' + 1) t) =
        (⟨((r' + 1 : ℕ) : ℤ), 0, some t⟩, List.replicate (r' + 1) 0) := by
    rw [List.replicate_succ, RateLimiter.init, RateLimiter.acquireSeq,
      acquire_fresh _ _ t hr0]
    dsimp only
    rw [acquireSeq_replicate r' _ _ t (by push_cast; omega)]
    rw [show ((r' + 1 : ℕ) : ℤ) - 1 - (r' : ℤ) = 0 from by push_cast; ring,
      List.replicate_succ]
  have hwait : (0 : ℚ) < t + 1 - tp := by linarith
  refine ⟨?_, hwait⟩
  rw [acquireSeq_append, hfirst]
  dsimp only
  rw [show RateLimiter.acquireSeq ⟨((r' + 1 : ℕ) : ℤ), 0, some t⟩ [tp] =
      ((RateLimiter.acquire ⟨((r' + 1 : ℕ) : ℤ), 0, some t⟩ tp).1,
        [(RateLimiter.acquire ⟨((r' + 1 : ℕ) : ℤ), 0, some t⟩ tp).2]) from rfl,
    acquire_empty _ _ t tp (by linarith) le_rfl]
  dsimp only
  rw [max_eq_left (by linarith), show tp + (1 - (tp - t)) = t + 1 from by ring,
    show 1 - (tp - t) = t + 1 - tp from by ring]

/-- C9 witness: with `rate = 5`, five acquires at time 0 are immediate, the
6th at time 1/2 sleeps exactly half a time unit and leaves 4 tokens in the
new window; and a 2-call immediate run is within a 3-token budget. -/
theorem rate_limiter_window_behavior_witness :
    (RateLimiter.init ((5 : ℕ) : ℤ)).acquireSeq (List.replicate 5 0 ++ [1 / 2]) =
      (⟨((5 : ℕ) : ℤ), ((5 : ℕ) : ℤ) - 1, some (0 + 1)⟩,
        List.replicate 5 0 ++ [0 + 1 - 1 / 2]) ∧
    (((List.replicate 2 (0 : ℚ)).length : ℤ) ≤ (3 : ℤ)) := by
  constructor
  · exact (rate_limiter_window_behavior.2.2 5 0 (1 / 2) (by norm_num) (by norm_num)
      (by norm_num)).1
  · refine rate_limiter_window_behavior.2.1 ⟨5, 3, some 0⟩ 0 (List.replicate 2 0) rfl
      (by norm_num) ?_ ?_
    · intro x hx
      rw [List.eq_of_mem_replicate hx]
      norm_num
    · rw [acquireSeq_replicate 2 5 3 0 (by norm_num)]
      simp

/-! ## Transformer lemmas and claims C1, C6 -/

theorem roundHalfEven_nonneg (q : ℚ) (h : 0 ≤ q) : 0 ≤ roundHalfEven q := by
  have hf : (0 : ℤ) ≤ ⌊q⌋ := Int.floor_nonneg.mpr h
  unfold roundHalfEven
  split_ifs <;> omega

theorem roundTo2_nonneg (q : ℚ) (h : 0 ≤ q) : 0 ≤ roundTo2 q := by
  unfold roundTo2
  have : (0 : ℤ) ≤ roundHalfEven (q * 100) := roundHalfEven_nonneg _ (by positivity)
  positivity

/-- A raw record with a valid price and one parseable but negative stock
quantity (`int(-1) = -1` in the source, which performs no clamping). -/
def c1raw : RawRecord :=
  ⟨some "SKU-NEG-STOCK", some "Returns", some 0, some [("praha", some (-1))], none⟩

/-- C1 counterexample: `transform_product` keeps the record but emits a
negative aggregate stock, refuting the unconditional non-negativity of
`stock` claimed by the specification. -/
theorem transform_negative_stock_counterexample :
    (transform_product c1raw).map NormalizedProduct.stock = some (-1) ∧ (-1 : ℤ) < 0 := by
  constructor
  · decide
  · decide

/-- C1 (amended): for every record `transform_product` keeps, the price is
defined and non-negative and the stock is the sum of the parsed location
quantities with unparseable quantities counting as 0; that sum — and hence
`stock` — is non-negative whenever every parsed quantity is non-negative
(the source does not clamp negative parsed quantities). -/
theorem transform_price_stock (raw : RawRecord) (p : NormalizedProduct)
    (h : transform_product raw = some p) :
    0 ≤ p.price ∧
    p.stock = ((raw.stocks.getD []).map (fun kv => _parse_stock_value kv.2)).sum ∧
    ((∀ kv ∈ raw.stocks.getD [], 0 ≤ _parse_stock_value kv.2) → 0 ≤ p.stock) := by
  unfold transform_product at h
  cases hpe : raw.price_vat_excl with
  | none => rw [hpe] at h; exact absurd h (by simp)
  | some price_excl =>
    rw [hpe] at h
    dsimp only at h
    by_cases hneg : price_excl < 0
    · rw [if_pos hneg] at h; exact absurd h (by simp)
    · rw [if_neg hneg] at h
      simp only [Option.some.injEq] at h
      subst h
      refine ⟨?_, rfl, ?_⟩
      · exact roundTo2_nonneg _ (by
          have h0 : 0 ≤ price_excl := not_lt.mp hneg
          have h1 : (0 : ℚ) ≤ 1 + VAT_RATE := by norm_num [VAT_RATE]
          positivity)
      · intro hall
        exact List.sum_nonneg (by
          intro x hx
          obtain ⟨kv, hkv, rfl⟩ := List.mem_map.mp hx
          exact hall kv hkv)

/-- A fully valid raw record. -/
def c1okraw : RawRecord :=
  ⟨some "SKU-001", some "Item", some 100, some [("praha", some 3), ("brno", none)],
   some [("color", "red")]⟩

/-- The payload `transform_product` produces for `c1okraw`. -/
def c1okprod : NormalizedProduct :=
  ⟨"SKU-001", "Item", roundTo2 (100 * (1 + VAT_RATE)), 3, "red"⟩

theorem transform_price_stock_witness :
    0 ≤ c1okprod.price ∧
    c1okprod.stock = ((c1okraw.stocks.getD []).map (fun kv => _parse_stock_value kv.2)).sum ∧
    ((∀ kv ∈ c1okraw.stocks.getD [], 0 ≤ _parse_stock_value kv.2) → 0 ≤ c1okprod.stock) :=
  transform_price_stock c1okraw c1okprod rfl

theorem dedupLoop_sublist (l : List RawRecord) : ∀ seen, List.Sublist (dedupLoop seen l) l := by
  induction l with
  | nil => intro seen; exact List.Sublist.refl []
  | cons item rest ih =>
    intro seen
    unfold dedupLoop
    by_cases hmem : item.id ∈ seen
    · rw [if_pos hmem]; exact (ih seen).cons item
    · rw [if_neg hmem]; exact (ih (item.id :: seen)).cons₂ item

theorem dedupLoop_id_not_seen (l : List RawRecord) :
    ∀ seen r, r ∈ dedupLoop seen l → r.id ∉ seen := by
  induction l with
  | nil => intro seen r h; exact absurd h (by simp [dedupLoop])
  | cons item rest ih =>
    intro seen r h
    unfold dedupLoop at h
    by_cases hmem : item.id ∈ seen
    · rw [if_pos hmem] at h; exact ih seen r h
    · rw [if_neg hmem] at h
      rcases List.mem_cons.mp h with rfl | h2
      · exact hmem
      · exact fun hc => ih _ r h2 (List.mem_cons_of_mem _ hc)

theorem dedupLoop_ids_nodup (l : List RawRecord) :
    ∀ seen, ((dedupLoop seen l).map (fun r => r.id)).Nodup := by
  induction l with
  | nil => intro seen; simp [dedupLoop]
  | cons item rest ih =>
    intro seen
    unfold dedupLoop
    by_cases hmem : item.id ∈ seen
    · rw [if_pos hmem]; exact ih seen
    · rw [if_neg hmem]
      refine List.Nodup.cons ?_ (ih (item.id :: seen))
      intro hc
      obtain ⟨r, hr, hid⟩ := List.mem_map.mp hc
      exact dedupLoop_id_not_seen rest _ r hr (by rw [hid]; exact List.mem_cons_self _ _)

theorem dedupLoop_first (l : List RawRecord) :
    ∀ seen r, r ∈ dedupLoop seen l → findFirstBySku r.id l = some r := by
  induction l with
  | nil => intro seen r h; exact absurd h (by simp [dedupLoop])
  | cons item rest ih =>
    intro seen r h
    have hnotseen := dedupLoop_id_not_seen (item :: rest) seen r h
    unfold dedupLoop at h
    unfold findFirstBySku
    by_cases hmem : item.id ∈ seen
    · rw [if_pos hmem] at h
      have hne : item.id ≠ r.id := fun he => hnotseen (he ▸ hmem)
      rw [if_neg hne]
      exact ih seen r h
    · rw [if_neg hmem] at h
      rcases List.mem_cons.mp h with rfl | h2
      · rw [if_pos rfl]
      · have hne : item.id ≠ r.id := by
          intro he
          exact dedupLoop_id_not_seen rest _ r h2 (he ▸ List.mem_cons_self _ _)
        rw [if_neg hne]
        exact ih (item.id :: seen) r h2

theorem dedupLoop_covers (l : List RawRecord) :
    ∀ seen x, x ∈ l → x.id ∉ seen → ∃ r ∈ dedupLoop seen l, r.id = x.id := by
  induction l with
  | nil => intro seen x h; exact absurd h (by simp)
  | cons item rest ih =>
    intro seen x h hns
    unfold dedupLoop
    by_cases hmem : item.id ∈ seen
    · rw [if_pos hmem]
      rcases List.mem_cons.mp h with rfl | h2
      · exact absurd hmem hns
      · exact ih seen x h2 hns
    · rw [if_neg hmem]
      by_cases hid : x.id = item.id
      · exact ⟨item, List.mem_cons_self _ _, hid.symm⟩
      · rcases List.mem_cons.mp h with rfl | h2
        · exact absurd rfl hid
        · obtain ⟨r, hr, he⟩ := ih (item.id :: seen) x h2 (by
            intro hc
            rcases List.mem_cons.mp hc with hc1 | hc2
            · exact hid hc1
            · exact hns hc2)
          exact ⟨r, List.mem_cons_of_mem _ hr, he⟩

/-- The `sku` of a transformed payload is the raw record's `id`
(defaulting to the sentinel when the key is absent). -/
theorem transform_product_sku (raw : RawRecord) (p : NormalizedProduct)
    (h : transform_product raw = some p) : p.sku = raw.id.getD "<unknown>" := by
  unfold transform_product at h
  cases hpe : raw.price_vat_excl with
  | none => rw [hpe] at h; exact absurd h (by simp)
  | some price_excl =>
    rw [hpe] at h
    dsimp only at h
    by_cases hneg : price_excl < 0
    · rw [if_pos hneg] at h; exact absurd h (by simp)
    · rw [if_neg hneg] at h
      simp only [Option.some.injEq] at h
      subst h
      rfl

/-- C6: `load_erp_data` keeps a subsequence of the batch (first-seen order
preserved) containing exactly one record per `id` key — always the first
occurrence of that key — and covering every key of the batch.
Consequently, when the first occurrence of identifier `k` fails
normalisation, `load_and_transform` yields no payload with sku `k` at all
(records being identified, per the input contract, by a present `id`). -/
theorem dedup_first_wins (l : List RawRecord) :
    List.Sublist (load_erp_data l) l ∧
    ((load_erp_data l).map (fun r => r.id)).Nodup ∧
    (∀ r ∈ load_erp_data l, findFirstBySku r.id l = some r) ∧
    (∀ x ∈ l, ∃ r ∈ load_erp_data l, r.id = x.id) ∧
    (∀ (k : String) (r0 : RawRecord), findFirstBySku (some k) l = some r0 →
      transform_product r0 = none → (∀ r ∈ l, r.id ≠ none) →
      k ∉ (load_and_transform l).map NormalizedProduct.sku) := by
  refine ⟨dedupLoop_sublist l [], dedupLoop_ids_nodup l [],
    fun r hr => dedupLoop_first l [] r hr,
    fun x hx => dedupLoop_covers l [] x hx (by simp), ?_⟩
  intro k r0 hfirst hdrop hids hmem
  obtain ⟨p, hp, hsku⟩ := List.mem_map.mp hmem
  obtain ⟨r, hr, htr⟩ := List.mem_filterMap.mp hp
  have hrl : r ∈ l := (dedupLoop_sublist l []).subset hr
  have hidr : r.id ≠ none := hids r hrl
  obtain ⟨s, hs⟩ := Option.ne_none_iff_exists'.mp hidr
  have hskur : p.sku = s := by rw [transform_product_sku r p htr, hs]; rfl
  have hsk : r.id = some k := by
    rw [hs]
    exact congrArg some (hskur.symm.trans hsku)
  have := dedupLoop_first l [] r hr
  rw [hsk, hfirst] at this
  have hr0 : r0 = r := Option.some.inj this
  rw [hr0, htr] at hdrop
  exact absurd hdrop (by simp)

/-- Batch: duplicate identifier whose first occurrence has a null price. -/
def c6bad : RawRecord := ⟨some "SKU-DUP", some "Bad", none, none, none⟩

/-- Later, valid duplicate of the same identifier. -/
def c6good : RawRecord := ⟨some "SKU-DUP", some "Good", some 100, none, none⟩

/-- An unrelated valid record. -/
def c6other : RawRecord := ⟨some "SKU-OK", some "Other", some 50, none, none⟩

/-- The witness batch. -/
def c6list : List RawRecord := [c6bad, c6good, c6other]

theorem dedup_first_wins_witness :
    "SKU-DUP" ∉ (load_and_transform c6list).map NormalizedProduct.sku :=
  (dedup_first_wins c6list).2.2.2.2 "SKU-DUP" c6bad (by decide) rfl (by decide)

/-! ## Fingerprint lemmas and claim C8 -/

/-- Two key-sorted association lists with duplicate-free keys that are
permutations of each other are equal. -/
theorem sorted_keyLE_perm_eq :
    ∀ (l₁ l₂ : List (String × JVal)), l₁.Perm l₂ → l₁.Sorted keyLE → l₂.Sorted keyLE →
      (l₁.map Prod.fst).Nodup → l₁ = l₂ := by
  intro l₁
  induction l₁ with
  | nil =>
    intro l₂ hp _ _ _
    exact (List.Perm.eq_nil hp.symm).symm
  | cons a t₁ ih =>
    intro l₂ hp hs₁ hs₂ hnd
    cases l₂ with
    | nil => exact absurd hp.eq_nil (by simp)
    | cons b t₂ =>
      have hab : a = b := by
        rcases List.mem_cons.mp (hp.mem_iff.mp (List.mem_cons_self a t₁)) with h | h
        · exact h
        · rcases List.mem_cons.mp (hp.mem_iff.mpr (List.mem_cons_self b t₂)) with h2 | h2
          · exact h2.symm
          · have hba : keyLE b a := (List.sorted_cons.mp hs₂).1 a h
            have hab' : keyLE a b := (List.sorted_cons.mp hs₁).1 b h2
            have hk : a.1 = b.1 := le_antisymm hab' hba
            have hmem : a.1 ∈ t₁.map Prod.fst := by
              rw [hk]
              exact List.mem_map_of_mem Prod.fst h2
            exact absurd hmem (List.nodup_cons.mp hnd).1
      subst hab
      have ht := ih t₂ hp.cons_inv (List.sorted_cons.mp hs₁).2 (List.sorted_cons.mp hs₂).2
        (by simpa using (List.nodup_cons.mp hnd).2)
      rw [ht]

/-- The digest string is 64 characters long. -/
theorem sha256Hex_length (msg : List ℕ) : (sha256Hex msg).length = 64 := by
  show (String.mk _).length = 64
  show (List.length _) = 64
  simp [toHex8]

/-- The lower-case hexadecimal alphabet. -/
def hexDigits : List Char := "0123456789abcdef".data

theorem hexChar_mod_mem (n : ℕ) : hexChar (n % 16) ∈ hexDigits := by
  have h : n % 16 < 16 := Nat.mod_lt _ (by norm_num)
  have hall : ∀ m, m < 16 → hexChar m ∈ hexDigits := by decide
  exact hall _ h

/-- Every character of the digest is a hexadecimal digit. -/
theorem sha256Hex_chars (msg : List ℕ) : ∀ c ∈ (sha256Hex msg).data, c ∈ hexDigits := by
  intro c hc
  have hc' : c ∈ toHex8 (sha256Words msg).a ++ toHex8 (sha256Words msg).b ++
      toHex8 (sha256Words msg).c ++ toHex8 (sha256Words msg).d ++ toHex8 (sha256Words msg).e ++
      toHex8 (sha256Words msg).f ++ toHex8 (sha256Words msg).g ++ toHex8 (sha256Words msg).h := hc
  simp only [List.mem_append, toHex8, List.mem_map, List.mem_range] at hc'
  rcases hc' with ((((((h | h) | h) | h) | h) | h) | h) | h <;>
    · obtain ⟨i, _, rfl⟩ := h
      exact hexChar_mod_mem _

/-- C8: `compute_hash` is invariant under reordering of the dict entries
(for the duplicate-free keys a Python dict guarantees), and every digest is
a fixed-length string of exactly 64 hexadecimal characters. -/
theorem compute_hash_canonical :
    (∀ p q : List (String × JVal), p.Perm q → (p.map Prod.fst).Nodup →
      compute_hash p = compute_hash q) ∧
    (∀ p : List (String × JVal), (compute_hash p).length = 64 ∧
      ∀ c ∈ (compute_hash p).data, c ∈ hexDigits) := by
  constructor
  · intro p q hperm hnd
    have hsp := List.sorted_insertionSort keyLE p
    have hsq := List.sorted_insertionSort keyLE q
    have h1 : (List.insertionSort keyLE p).Perm (List.insertionSort keyLE q) :=
      ((List.perm_insertionSort keyLE p).trans hperm).trans
        (List.perm_insertionSort keyLE q).symm
    have hnd' : ((List.insertionSort keyLE p).map Prod.fst).Nodup :=
      (List.Perm.nodup_iff ((List.perm_insertionSort keyLE p).map Prod.fst)).mpr hnd
    have heq := sorted_keyLE_perm_eq _ _ h1 hsp hsq hnd'
    unfold compute_hash jsonDumpsSorted
    rw [heq]
  · exact fun p => ⟨sha256Hex_length _, sha256Hex_chars _⟩

/-- The wire payload in the insertion order `transform_product` uses. -/
def cp1 : List (String × JVal) :=
  [("sku", .jstr "SKU-001"), ("title", .jstr "A"), ("price", .jflt 121),
   ("stock", .jint 5), ("color", .jstr "N/A")]

/-- The same payload with its fields in a different insertion order. -/
def cp2 : List (String × JVal) :=
  [("color", .jstr "N/A"), ("stock", .jint 5), ("price", .jflt 121),
   ("title", .jstr "A"), ("sku", .jstr "SKU-001")]

theorem compute_hash_canonical_witness :
    compute_hash cp1 = compute_hash cp2 ∧ (compute_hash cp1).length = 64 :=
  ⟨compute_hash_canonical.1 cp1 cp2 (by decide) (by decide),
   (compute_hash_canonical.2 cp1).1⟩

/-! ## Orchestrator lemmas and claims C3, C5, C10 -/

/-- Step characterisation when a row for the sku exists. -/
theorem syncStep_eq_some (send : NormalizedProduct → Bool → Bool) (acc : RunAcc)
    (p : NormalizedProduct) (st : SyncStateRec) (h : acc.store p.sku = some st) :
    syncStep send acc p =
      if st.content_hash = productHash p then { acc with skipped := acc.skipped + 1 }
      else if send p false then
        { acc with store := upsert acc.store p.sku ⟨productHash p, false⟩,
                   sent := acc.sent + 1, calls := acc.calls ++ [p.sku] }
      else { acc with errors := acc.errors + 1, calls := acc.calls ++ [p.sku] } := by
  unfold syncStep
  dsimp only
  rw [h]

/-- Step characterisation when no row for the sku exists. -/
theorem syncStep_eq_none (send : NormalizedProduct → Bool → Bool) (acc : RunAcc)
    (p : NormalizedProduct) (h : acc.store p.sku = none) :
    syncStep send acc p =
      if send p true then
        { acc with store := upsert acc.store p.sku ⟨productHash p, true⟩,
                   sent := acc.sent + 1, calls := acc.calls ++ [p.sku] }
      else { acc with errors := acc.errors + 1, calls := acc.calls ++ [p.sku] } := by
  unfold syncStep
  dsimp only
  rw [h]

/-- Every step settles its product into exactly one of the three counters. -/
theorem syncStep_counts (send : NormalizedProduct → Bool → Bool) (acc : RunAcc)
    (p : NormalizedProduct) :
    (syncStep send acc p).sent + (syncStep send acc p).skipped + (syncStep send acc p).errors =
      acc.sent + acc.skipped + acc.errors + 1 := by
  cases h : acc.store p.sku with
  | some st => rw [syncStep_eq_some send acc p st h]; split_ifs <;> dsimp only <;> omega
  | none => rw [syncStep_eq_none send acc p h]; split_ifs <;> dsimp only <;> omega

/-- Counter totals over a fold. -/
theorem syncRun_counts (send : NormalizedProduct → Bool → Bool)
    (products : List NormalizedProduct) :
    ∀ acc : RunAcc,
      (products.foldl (syncStep send) acc).sent + (products.foldl (syncStep send) acc).skipped +
          (products.foldl (syncStep send) acc).errors =
        acc.sent + acc.skipped + acc.errors + products.length := by
  induction products with
  | nil => intro acc; simp
  | cons p ps ih =>
    intro acc
    rw [List.foldl_cons, List.length_cons]
    have := ih (syncStep send acc p)
    have hstep := syncStep_counts send acc p
    omega

/-- C10: in every run, `sent + skipped + errors` equals the number of
products produced by the load-and-transform stage for that run. -/
theorem sync_counters_partition (send : NormalizedProduct → Bool → Bool) (store0 : SyncStore)
    (raw_list : List RawRecord) :
    (sync_products_task send store0 (load_and_transform raw_list)).sent +
        (sync_products_task send store0 (load_and_transform raw_list)).skipped +
        (sync_products_task send store0 (load_and_transform raw_list)).errors =
      (load_and_transform raw_list).length := by
  unfold sync_products_task
  rw [syncRun_counts]
  simp

/-- A step on a product whose stored hash matches: pure skip. -/
theorem syncStep_skip (send : NormalizedProduct → Bool → Bool) (acc : RunAcc)
    (p : NormalizedProduct) (st : SyncStateRec) (h : acc.store p.sku = some st)
    (hh : st.content_hash = productHash p) :
    syncStep send acc p = { acc with skipped := acc.skipped + 1 } := by
  rw [syncStep_eq_some send acc p st h, if_pos hh]

/-- A step never touches stored rows of other skus. -/
theorem syncStep_store_other (send : NormalizedProduct → Bool → Bool) (acc : RunAcc)
    (p : NormalizedProduct) (k : String) (hk : k ≠ p.sku) :
    (syncStep send acc p).store k = acc.store k := by
  cases h : acc.store p.sku with
  | some st =>
    rw [syncStep_eq_some send acc p st h]
    split_ifs <;> simp [upsert, hk]
  | none =>
    rw [syncStep_eq_none send acc p h]
    split_ifs <;> simp [upsert, hk]

/-- After a step with an always-succeeding send, the stored row for the
product's sku carries the product's current hash. -/
theorem syncStep_success_store (acc : RunAcc) (q : NormalizedProduct) :
    ∃ st, ((syncStep (fun _ _ => true) acc q).store) q.sku = some st ∧
      st.content_hash = productHash q := by
  cases h : acc.store q.sku with
  | some st =>
    rw [syncStep_eq_some _ acc q st h]
    by_cases hh : st.content_hash = productHash q
    · rw [if_pos hh]
      exact ⟨st, h, hh⟩
    · rw [if_neg hh, if_pos rfl]
      exact ⟨⟨productHash q, false⟩, by simp [upsert], rfl⟩
  | none =>
    rw [syncStep_eq_none _ acc q h, if_pos rfl]
    exact ⟨⟨productHash q, true⟩, by simp [upsert], rfl⟩

/-- A fold leaves rows alone whose sku is not among the batch. -/
theorem syncRun_store_other (send : NormalizedProduct → Bool → Bool)
    (ps : List NormalizedProduct) :
    ∀ (acc : RunAcc) (k : String), k ∉ ps.map NormalizedProduct.sku →
      ((ps.foldl (syncStep send) acc).store) k = acc.store k := by
  induction ps with
  | nil => intro acc k _; rfl
  | cons p ps ih =>
    intro acc k hk
    simp only [List.map_cons, List.mem_cons, not_or] at hk
    rw [List.foldl_cons, ih _ k (by simpa using hk.2), syncStep_store_other send acc p k hk.1]

/-- After a run with an always-succeeding send over a batch with distinct
skus, every product's stored row carries its current hash. -/
theorem syncRun_success_store (ps : List NormalizedProduct) :
    ∀ acc : RunAcc, (ps.map NormalizedProduct.sku).Nodup →
      ∀ p ∈ ps, ∃ st, ((ps.foldl (syncStep (fun _ _ => true)) acc).store) p.sku = some st ∧
        st.content_hash = productHash p := by
  induction ps with
  | nil => intro acc _ p hp; exact absurd hp (by simp)
  | cons q ps ih =>
    intro acc hnd p hp
    rw [List.map_cons, List.nodup_cons] at hnd
    rcases List.mem_cons.mp hp with rfl | hp2
    · obtain ⟨st, hst, hh⟩ := syncStep_success_store acc p
      refine ⟨st, ?_, hh⟩
      rw [List.foldl_cons, syncRun_store_other _ ps _ p.sku hnd.1, hst]
    · rw [List.foldl_cons]
      exact ih _ hnd.2 p hp2

/-- A fold over products whose stored hashes all match only counts skips. -/
theorem syncRun_all_match (send : NormalizedProduct → Bool → Bool)
    (ps : List NormalizedProduct) :
    ∀ acc : RunAcc,
      (∀ p ∈ ps, ∃ st, acc.store p.sku = some st ∧ st.content_hash = productHash p) →
      ps.foldl (syncStep send) acc = { acc with skipped := acc.skipped + ps.length } := by
  induction ps with
  | nil => intro acc _; simp
  | cons p ps ih =>
    intro acc hall
    obtain ⟨st, hst, hh⟩ := hall p (List.mem_cons_self _ _)
    rw [List.foldl_cons, syncStep_skip send acc p st hst hh,
      ih { acc with skipped := acc.skipped + 1 }
        (fun q hq => hall q (List.mem_cons_of_mem _ hq)),
      List.length_cons,
      show acc.skipped + (ps.length + 1) = acc.skipped + 1 + ps.length from by omega]

/-- Distinct raw ids (all present) give distinct payload skus. -/
theorem filterMap_sku_nodup (d : List RawRecord)
    (hnd : (d.map (fun r => r.id)).Nodup) (hids : ∀ r ∈ d, r.id ≠ none) :
    ((d.filterMap transform_product).map NormalizedProduct.sku).Nodup := by
  induction d with
  | nil => simp
  | cons r d ih =>
    rw [List.map_cons, List.nodup_cons] at hnd
    have hid := hids r (List.mem_cons_self _ _)
    cases htr : transform_product r with
    | none =>
      rw [List.filterMap_cons_none htr]
      exact ih hnd.2 (fun x hx => hids x (List.mem_cons_of_mem _ hx))
    | some p =>
      rw [List.filterMap_cons_some htr]
      refine List.Nodup.cons ?_ (ih hnd.2 (fun x hx => hids x (List.mem_cons_of_mem _ hx)))
      intro hc
      obtain ⟨q, hq, hqsku⟩ := List.mem_map.mp hc
      obtain ⟨r2, hr2, htr2⟩ := List.mem_filterMap.mp hq
      obtain ⟨s, hs⟩ := Option.ne_none_iff_exists'.mp hid
      obtain ⟨s2, hs2⟩ := Option.ne_none_iff_exists'.mp (hids r2 (List.mem_cons_of_mem _ hr2))
      have h1 : p.sku = s := by rw [transform_product_sku r p htr, hs]; rfl
      have h2 : q.sku = s2 := by rw [transform_product_sku r2 q htr2, hs2]; rfl
      have hideq : r.id = r2.id := by
        rw [hs, hs2]
        exact congrArg some (h1.symm.trans (hqsku.symm.trans h2))
      exact hnd.1 (hideq ▸ List.mem_map_of_mem (fun x => x.id) hr2)

/-- Payload skus are distinct whenever every raw record carries an id. -/
theorem load_and_transform_sku_nodup (l : List RawRecord)
    (hids : ∀ r ∈ l, r.id ≠ none) :
    ((load_and_transform l).map NormalizedProduct.sku).Nodup :=
  filterMap_sku_nodup (load_erp_data l) (dedupLoop_ids_nodup l [])
    (fun r hr => hids r ((dedupLoop_sublist l []).subset hr))

/-- C3: after a first run in which every send succeeded, a second run over
the same (unchanged) products finds every stored fingerprint equal to the
recomputed one, so it skips every record, sends nothing, errs nowhere and
makes no network call. -/
theorem second_run_all_skips (raw_list : List RawRecord) (store0 : SyncStore)
    (send2 : NormalizedProduct → Bool → Bool) (hids : ∀ r ∈ raw_list, r.id ≠ none) :
    (sync_products_task send2
        (sync_products_task (fun _ _ => true) store0 (load_and_transform raw_list)).store
        (load_and_transform raw_list)).sent = 0 ∧
    (sync_products_task send2
        (sync_products_task (fun _ _ => true) store0 (load_and_transform raw_list)).store
        (load_and_transform raw_list)).errors = 0 ∧
    (sync_products_task send2
        (sync_products_task (fun _ _ => true) store0 (load_and_transform raw_list)).store
        (load_and_transform raw_list)).skipped = (load_and_transform raw_list).length ∧
    (sync_products_task send2
        (sync_products_task (fun _ _ => true) store0 (load_and_transform raw_list)).store
        (load_and_transform raw_list)).calls = [] := by
  have hnd := load_and_transform_sku_nodup raw_list hids
  have hmatch := syncRun_success_store (load_and_transform raw_list)
    ⟨store0, 0, 0, 0, []⟩ hnd
  have hrun : sync_products_task send2
      (sync_products_task (fun _ _ => true) store0 (load_and_transform raw_list)).store
      (load_and_transform raw_list) =
      { store := (sync_products_task (fun _ _ => true) store0
          (load_and_transform raw_list)).store,
        sent := 0, skipped := 0 + (load_and_transform raw_list).length, errors := 0,
        calls := [] } := by
    unfold sync_products_task
    exact syncRun_all_match send2 (load_and_transform raw_list) _ (fun p hp => hmatch p hp)
  rw [hrun]
  exact ⟨rfl, rfl, by simp, rfl⟩

theorem second_run_all_skips_witness :
    (sync_products_task (fun _ _ => false)
        (sync_products_task (fun _ _ => true) (fun _ => none)
          (load_and_transform [c1okraw])).store
        (load_and_transform [c1okraw])).sent = 0 ∧
    (sync_products_task (fun _ _ => false)
        (sync_products_task (fun _ _ => true) (fun _ => none)
          (load_and_transform [c1okraw])).store
        (load_and_transform [c1okraw])).errors = 0 ∧
    (sync_products_task (fun _ _ => false)
        (sync_products_task (fun _ _ => true) (fun _ => none)
          (load_and_transform [c1okraw])).store
        (load_and_transform [c1okraw])).skipped = (load_and_transform [c1okraw]).length ∧
    (sync_products_task (fun _ _ => false)
        (sync_products_task (fun _ _ => true) (fun _ => none)
          (load_and_transform [c1okraw])).store
        (load_and_transform [c1okraw])).calls = [] :=
  second_run_all_skips [c1okraw] (fun _ => none) (fun _ _ => false) (by decide)

/-- A send outcome that fails exactly for the sku of `f` and succeeds for
every other product. -/
def sendExcept (f : NormalizedProduct) : NormalizedProduct → Bool → Bool :=
  fun p _ => decide (p.sku ≠ f.sku)

/-- Over all-new records none of which is the failing one, every record is
sent and the failing sku's row is never written. -/
theorem syncRun_allnew_nofail (f : NormalizedProduct) (ps : List NormalizedProduct) :
    ∀ acc : RunAcc, (ps.map NormalizedProduct.sku).Nodup →
      (∀ p ∈ ps, acc.store p.sku = none) → (∀ p ∈ ps, p.sku ≠ f.sku) →
      (ps.foldl (syncStep (sendExcept f)) acc).errors = acc.errors ∧
      (ps.foldl (syncStep (sendExcept f)) acc).sent = acc.sent + ps.length ∧
      (ps.foldl (syncStep (sendExcept f)) acc).skipped = acc.skipped ∧
      ((ps.foldl (syncStep (sendExcept f)) acc).store) f.sku = acc.store f.sku := by
  induction ps with
  | nil => intro acc _ _ _; exact ⟨rfl, by simp, rfl, rfl⟩
  | cons p ps ih =>
    intro acc hnd hnone hne
    rw [List.map_cons, List.nodup_cons] at hnd
    have hpn := hnone p (List.mem_cons_self _ _)
    have hpne := hne p (List.mem_cons_self _ _)
    have hsend : sendExcept f p true = true := by simp [sendExcept, hpne]
    rw [List.foldl_cons, syncStep_eq_none _ acc p hpn, if_pos hsend]
    obtain ⟨ih1, ih2, ih3, ih4⟩ := ih
      { acc with store := upsert acc.store p.sku ⟨productHash p, true⟩,
                 sent := acc.sent + 1, calls := acc.calls ++ [p.sku] }
      hnd.2
      (by
        intro q hq
        dsimp only
        have hqp : q.sku ≠ p.sku := by
          intro he
          exact hnd.1 (he ▸ List.mem_map_of_mem NormalizedProduct.sku hq)
        simp [upsert, hqp]
        exact hnone q (List.mem_cons_of_mem _ hq))
      (fun q hq => hne q (List.mem_cons_of_mem _ hq))
    refine ⟨by rw [ih1], ?_, by rw [ih3], ?_⟩
    · rw [ih2]
      dsimp only
      rw [List.length_cons]
      omega
    · rw [ih4]
      dsimp only
      simp [upsert, Ne.symm hpne]

/-- Over all-new records with distinct skus containing the failing record,
exactly that record errors, all others are sent, and the failing sku's row
stays untouched. -/
theorem syncRun_one_fail (f : NormalizedProduct) (ps : List NormalizedProduct) :
    ∀ acc : RunAcc, (ps.map NormalizedProduct.sku).Nodup →
      (∀ p ∈ ps, acc.store p.sku = none) → f ∈ ps →
      (ps.foldl (syncStep (sendExcept f)) acc).errors = acc.errors + 1 ∧
      (ps.foldl (syncStep (sendExcept f)) acc).sent = acc.sent + (ps.length - 1) ∧
      (ps.foldl (syncStep (sendExcept f)) acc).skipped = acc.skipped ∧
      ((ps.foldl (syncStep (sendExcept f)) acc).store) f.sku = acc.store f.sku := by
  induction ps with
  | nil => intro acc _ _ hf; exact absurd hf (by simp)
  | cons p ps ih =>
    intro acc hnd hnone hf
    rw [List.map_cons, List.nodup_cons] at hnd
    have hpn := hnone p (List.mem_cons_self _ _)
    rcases List.mem_cons.mp hf with rfl | hf2
    · have hsend : sendExcept f f true = false := by simp [sendExcept]
      rw [List.foldl_cons, syncStep_eq_none _ acc f hpn, if_neg (by rw [hsend]; simp)]
      have hne : ∀ q ∈ ps, q.sku ≠ f.sku := by
        intro q hq he
        exact hnd.1 (he ▸ List.mem_map_of_mem NormalizedProduct.sku hq)
      obtain ⟨ih1, ih2, ih3, ih4⟩ := syncRun_allnew_nofail f ps
        { acc with errors := acc.errors + 1, calls := acc.calls ++ [f.sku] }
        hnd.2
        (fun q hq => hnone q (List.mem_cons_of_mem _ hq))
        hne
      refine ⟨by rw [ih1], ?_, by rw [ih3], by rw [ih4]⟩
      rw [ih2]
      dsimp only
      rw [List.length_cons]
      omega
    · have hpne : p.sku ≠ f.sku := by
        intro he
        exact hnd.1 (he ▸ List.mem_map_of_mem NormalizedProduct.sku hf2)
      have hsend : sendExcept f p true = true := by simp [sendExcept, hpne]
      rw [List.foldl_cons, syncStep_eq_none _ acc p hpn, if_pos hsend]
      obtain ⟨ih1, ih2, ih3, ih4⟩ := ih
        { acc with store := upsert acc.store p.sku ⟨productHash p, true⟩,
                   sent := acc.sent + 1, calls := acc.calls ++ [p.sku] }
        hnd.2
        (by
          intro q hq
          dsimp only
          have hqp : q.sku ≠ p.sku := by
            intro he
            exact hnd.1 (he ▸ List.mem_map_of_mem NormalizedProduct.sku hq)
          simp [upsert, hqp]
          exact hnone q (List.mem_cons_of_mem _ hq))
        hf2
      have hlen : 1 ≤ ps.length := List.length_pos.mpr (List.ne_nil_of_mem hf2)
      refine ⟨by rw [ih1], ?_, by rw [ih3], ?_⟩
      · rw [ih2]
        dsimp only
        rw [List.length_cons]
        omega
      · rw [ih4]
        dsimp only
        simp [upsert, Ne.symm hpne]

/-- C5: a record whose send raises leaves its stored row untouched and
adds exactly 1 to `errors` (whether it was a creation or an update), and
the batch continues: over `N` all-new records with distinct skus of which
exactly one send fails, the run ends with `errors = 1`, `sent = N - 1`,
no skips, and no row ever written for the failed record's sku. -/
theorem record_failure_isolated :
    (∀ (send : NormalizedProduct → Bool → Bool) (acc : RunAcc) (p : NormalizedProduct),
      acc.store p.sku = none → send p true = false →
      syncStep send acc p =
        { acc with errors := acc.errors + 1, calls := acc.calls ++ [p.sku] }) ∧
    (∀ (send : NormalizedProduct → Bool → Bool) (acc : RunAcc) (p : NormalizedProduct)
      (st : SyncStateRec), acc.store p.sku = some st → st.content_hash ≠ productHash p →
      send p false = false →
      syncStep send acc p =
        { acc with errors := acc.errors + 1, calls := acc.calls ++ [p.sku] }) ∧
    (∀ (products : List NormalizedProduct) (f : NormalizedProduct),
      (products.map NormalizedProduct.sku).Nodup → f ∈ products →
      (sync_products_task (sendExcept f) (fun _ => none) products).errors = 1 ∧
      (sync_products_task (sendExcept f) (fun _ => none) products).sent =
        products.length - 1 ∧
      (sync_products_task (sendExcept f) (fun _ => none) products).skipped = 0 ∧
      ((sync_products_task (sendExcept f) (fun _ => none) products).store) f.sku = none) := by
  refine ⟨?_, ?_, ?_⟩
  · intro send acc p hst hfail
    rw [syncStep_eq_none send acc p hst, if_neg (by rw [hfail]; simp)]
  · intro send acc p st hst hne hfail
    rw [syncStep_eq_some send acc p st hst, if_neg hne, if_neg (by rw [hfail]; simp)]
  · intro products f hnd hf
    obtain ⟨h1, h2, h3, h4⟩ := syncRun_one_fail f products ⟨fun _ => none, 0, 0, 0, []⟩ hnd
      (fun _ _ => rfl) hf
    unfold sync_products_task
    exact ⟨by rw [h1], by rw [h2]; dsimp only; omega, by rw [h3], by rw [h4]⟩

/-- Three all-new products with distinct skus. -/
def pA : NormalizedProduct := ⟨"SKU-A", "A", 10, 1, "N/A"⟩

/-- See `pA`. -/
def pB : NormalizedProduct := ⟨"SKU-B", "B", 20, 2, "N/A"⟩

/-- See `pA`. -/
def pC : NormalizedProduct := ⟨"SKU-C", "C", 30, 3, "N/A"⟩

theorem record_failure_isolated_witness :
    (sync_products_task (sendExcept pB) (fun _ => none) [pA, pB, pC]).errors = 1 ∧
    (sync_products_task (sendExcept pB) (fun _ => none) [pA, pB, pC]).sent =
      ([pA, pB, pC] : List NormalizedProduct).length - 1 ∧
    (sync_products_task (sendExcept pB) (fun _ => none) [pA, pB, pC]).skipped = 0 ∧
    ((sync_products_task (sendExcept pB) (fun _ => none) [pA, pB, pC]).store) pB.sku =
      none :=
  record_failure_isolated.2.2 [pA, pB, pC] pB (by decide) (by decide)
